import Mathlib

/-!
# Verification of the BIDS Incremental core (`rtCommon/bidsIncremental.py`)

This file shallowly embeds the `BidsIncremental` data type and its
construction / metadata / naming operations, and proves or refutes the
frozen specification claims about them.

Conventions of the embedding:
* Python scalar values are modelled by the tagged union `Val`; floats are
  modelled by exact rationals (`Rat`).
* Python dictionaries are modelled by `Dict`, an insertion-ordered
  association list with unique keys; `Dict.beq` is Python's order-insensitive
  dictionary equality.
* NumPy arrays are modelled by a flat list of rationals plus an explicit
  shape (`NDArray`); NIfTI images carry data, an affine and a header.
* Fallible code returns `Except BidsError _`; a Python `raise` is an
  `.error`, and the constructor's final `assert` is the distinct
  `.assertionError` outcome (Python raises `AssertionError` there, which is
  not a `TypeError`).

Definitions whose source is `rtCommon/bidsCommon.py` or `rtCommon/errors.py`
(which are not part of the provided sources; only their callers are) are
modelled from the specification and say so in their doc comment.
-/

/-- Python scalar / small-structured metadata values.  Floats are modelled
as exact rationals. -/
inductive Val where
  | vstr : String → Val
  | vint : Int → Val
  | vrat : Rat → Val
  | vlist : List Rat → Val
  | vnone : Val
deriving DecidableEq, Repr

/-- A Python `dict` from string keys to `Val`: an insertion-ordered
association list (unique keys, maintained by the operations the way Python
dictionaries maintain them). -/
structure Dict where
  entries : List (String × Val)
deriving DecidableEq, Repr

/-- Lookup in an association list (first matching key). -/
def getEntries : List (String × Val) → String → Option Val
  | [], _ => Option.none
  | p :: rest, k => if p.1 = k then some p.2 else getEntries rest k

/-- Key membership in an association list. -/
def hasKeyEntries : List (String × Val) → String → Bool
  | [], _ => false
  | p :: rest, k => p.1 == k || hasKeyEntries rest k

/-- Python `d[k] = v` on an association list: replace the entry in place if
the key exists, otherwise append a new entry. -/
def insertEntries : List (String × Val) → String → Val → List (String × Val)
  | [], k, v => [(k, v)]
  | p :: rest, k, v => if p.1 = k then (k, v) :: rest else p :: insertEntries rest k v

/-- Python `d.pop(k, None)` on an association list: drop the entry if present. -/
def popEntries : List (String × Val) → String → List (String × Val)
  | [], _ => []
  | p :: rest, k => if p.1 = k then popEntries rest k else p :: popEntries rest k

/-- `d.get(k, None)` with absence distinguished from a stored Python `None`:
absent key gives `Option.none`, a stored `None` gives `some .vnone`. -/
def Dict.get (d : Dict) (k : String) : Option Val := getEntries d.entries k

/-- Python `k in d`. -/
def Dict.hasKey (d : Dict) (k : String) : Bool := hasKeyEntries d.entries k

/-- Python `d[k] = v`. -/
def Dict.insert (d : Dict) (k : String) (v : Val) : Dict :=
  ⟨insertEntries d.entries k v⟩

/-- Python `d.pop(k, None)`. -/
def Dict.pop (d : Dict) (k : String) : Dict := ⟨popEntries d.entries k⟩

/-- Python `d.update(other)`. -/
def Dict.updateWith (d other : Dict) : Dict :=
  other.entries.foldl (fun acc p => acc.insert p.1 p.2) d

def Dict.keys (d : Dict) : List String := d.entries.map (fun p => p.1)

/-- Python `d1 == d2` on dictionaries: order-insensitive equality of
key-value mappings. -/
def Dict.beq (d e : Dict) : Bool :=
  (d.keys ++ e.keys).all (fun k => d.get k == e.get k)

/- ### Dictionary lemmas -/

theorem getEntries_eq_none_of_not_hasKey (l : List (String × Val)) (k : String)
    (h : hasKeyEntries l k = false) : getEntries l k = Option.none := by
  induction l with
  | nil => rfl
  | cons p rest ih =>
    simp only [hasKeyEntries, Bool.or_eq_false_iff] at h
    have hp : p.1 ≠ k := by
      intro he
      rw [he] at h
      simp at h
    simp only [getEntries, if_neg hp]
    exact ih h.2

theorem Dict.get_eq_none_of_not_hasKey (d : Dict) (k : String)
    (h : d.hasKey k = false) : d.get k = Option.none :=
  getEntries_eq_none_of_not_hasKey d.entries k h

theorem hasKeyEntries_iff_mem (l : List (String × Val)) (k : String) :
    hasKeyEntries l k = true ↔ k ∈ l.map (fun p => p.1) := by
  induction l with
  | nil => simp [hasKeyEntries]
  | cons p rest ih =>
    simp only [hasKeyEntries, Bool.or_eq_true, List.map_cons, List.mem_cons, beq_iff_eq, ih]
    constructor
    · rintro (h | h)
      · left; exact h.symm
      · right; exact h
    · rintro (h | h)
      · left; exact h.symm
      · right; exact h

theorem Dict.hasKey_iff_mem_keys (d : Dict) (k : String) :
    d.hasKey k = true ↔ k ∈ d.keys :=
  hasKeyEntries_iff_mem d.entries k

theorem getEntries_isSome_of_hasKey (l : List (String × Val)) (k : String)
    (h : hasKeyEntries l k = true) : (getEntries l k).isSome = true := by
  induction l with
  | nil => simp [hasKeyEntries] at h
  | cons p rest ih =>
    simp only [hasKeyEntries, Bool.or_eq_true, beq_iff_eq] at h
    by_cases hp : p.1 = k
    · simp [getEntries, hp]
    · simp only [getEntries, if_neg hp]
      exact ih (h.resolve_left hp)

theorem Dict.get_isSome_of_hasKey (d : Dict) (k : String)
    (h : d.hasKey k = true) : (d.get k).isSome = true :=
  getEntries_isSome_of_hasKey d.entries k h

theorem getEntries_insert_self (l : List (String × Val)) (k : String) (v : Val) :
    getEntries (insertEntries l k v) k = some v := by
  induction l with
  | nil => simp [insertEntries, getEntries]
  | cons p rest ih =>
    by_cases hp : p.1 = k
    · simp [insertEntries, getEntries, hp]
    · simp only [insertEntries, if_neg hp, getEntries, if_neg hp]
      exact ih

theorem Dict.get_insert_self (d : Dict) (k : String) (v : Val) :
    (d.insert k v).get k = some v :=
  getEntries_insert_self d.entries k v

theorem getEntries_insert_ne (l : List (String × Val)) (k k' : String) (v : Val)
    (h : k ≠ k') : getEntries (insertEntries l k v) k' = getEntries l k' := by
  induction l with
  | nil => simp [insertEntries, getEntries, h]
  | cons p rest ih =>
    by_cases hp : p.1 = k
    · simp only [insertEntries, if_pos hp, getEntries, if_neg h]
      rw [if_neg (hp ▸ h)]
    · simp only [insertEntries, if_neg hp, getEntries]
      by_cases hq : p.1 = k'
      · simp [hq]
      · rw [if_neg hq, if_neg hq]
        exact ih

theorem Dict.get_insert_ne (d : Dict) (k k' : String) (v : Val)
    (h : k ≠ k') : (d.insert k v).get k' = d.get k' :=
  getEntries_insert_ne d.entries k k' v h

theorem hasKeyEntries_insert (l : List (String × Val)) (k k' : String) (v : Val) :
    hasKeyEntries (insertEntries l k v) k' = (k == k' || hasKeyEntries l k') := by
  induction l with
  | nil => simp [insertEntries, hasKeyEntries]
  | cons p rest ih =>
    by_cases hp : p.1 = k
    · simp only [insertEntries, if_pos hp, hasKeyEntries, hp]
      cases hkk : k == k' <;> simp [hkk]
    · simp only [insertEntries, if_neg hp, hasKeyEntries, ih]
      cases hpk : p.1 == k' <;> cases hkk : k == k' <;> simp [hpk, hkk]

theorem Dict.hasKey_insert (d : Dict) (k k' : String) (v : Val) :
    (d.insert k v).hasKey k' = (k == k' || d.hasKey k') :=
  hasKeyEntries_insert d.entries k k' v

theorem getFoldlInsert_of_not_hasKey (l : List (String × Val)) (d : Dict) (k : String)
    (h : hasKeyEntries l k = false) :
    (l.foldl (fun acc p => acc.insert p.1 p.2) d).get k = d.get k := by
  induction l generalizing d with
  | nil => rfl
  | cons p rest ih =>
    simp only [hasKeyEntries, Bool.or_eq_false_iff] at h
    simp only [List.foldl_cons]
    rw [ih _ h.2, Dict.get_insert_ne]
    intro hcontra
    rw [hcontra] at h
    simp at h

theorem Dict.get_updateWith_of_not_hasKey (d other : Dict) (k : String)
    (h : other.hasKey k = false) : (d.updateWith other).get k = d.get k :=
  getFoldlInsert_of_not_hasKey other.entries d k h

theorem hasKeyFoldlInsert_left (l : List (String × Val)) (d : Dict) (k : String)
    (h : d.hasKey k = true) :
    (l.foldl (fun acc p => acc.insert p.1 p.2) d).hasKey k = true := by
  induction l generalizing d with
  | nil => exact h
  | cons p rest ih =>
    simp only [List.foldl_cons]
    exact ih _ (by rw [Dict.hasKey_insert]; simp [h])

theorem Dict.hasKey_updateWith_left (d other : Dict) (k : String)
    (h : d.hasKey k = true) : (d.updateWith other).hasKey k = true :=
  hasKeyFoldlInsert_left other.entries d k h

theorem hasKeyFoldlInsert_right (l : List (String × Val)) (d : Dict) (k : String)
    (h : hasKeyEntries l k = true) :
    (l.foldl (fun acc p => acc.insert p.1 p.2) d).hasKey k = true := by
  induction l generalizing d with
  | nil => simp [hasKeyEntries] at h
  | cons p rest ih =>
    simp only [hasKeyEntries, Bool.or_eq_true, beq_iff_eq] at h
    simp only [List.foldl_cons]
    by_cases hp : p.1 = k
    · apply hasKeyFoldlInsert_left
      rw [Dict.hasKey_insert, hp]
      simp
    · exact ih _ (h.resolve_left hp)

theorem Dict.hasKey_updateWith_right (d other : Dict) (k : String)
    (h : other.hasKey k = true) : (d.updateWith other).hasKey k = true :=
  hasKeyFoldlInsert_right other.entries d k h

theorem Dict.beq_iff_get (d e : Dict) :
    Dict.beq d e = true ↔ ∀ k, d.get k = e.get k := by
  unfold Dict.beq
  rw [List.all_eq_true]
  constructor
  · intro h k
    by_cases hd : d.hasKey k = true
    · exact beq_iff_eq.mp (h k (by
        apply List.mem_append_left
        exact (Dict.hasKey_iff_mem_keys d k).mp hd))
    · by_cases he : e.hasKey k = true
      · exact beq_iff_eq.mp (h k (by
          apply List.mem_append_right
          exact (Dict.hasKey_iff_mem_keys e k).mp he))
      · rw [Dict.get_eq_none_of_not_hasKey d k (by simpa using hd),
            Dict.get_eq_none_of_not_hasKey e k (by simpa using he)]
  · intro h k _
    exact beq_iff_eq.mpr (h k)

theorem getEntries_pop_self (l : List (String × Val)) (k : String) :
    getEntries (popEntries l k) k = Option.none := by
  induction l with
  | nil => rfl
  | cons p rest ih =>
    by_cases hp : p.1 = k
    · simp only [popEntries, if_pos hp]
      exact ih
    · simp only [popEntries, if_neg hp, getEntries, if_neg hp]
      exact ih

theorem Dict.get_pop_self (d : Dict) (k : String) :
    (d.pop k).get k = Option.none :=
  getEntries_pop_self d.entries k

theorem getEntries_pop_ne (l : List (String × Val)) (k k' : String)
    (h : k' ≠ k) : getEntries (popEntries l k) k' = getEntries l k' := by
  induction l with
  | nil => rfl
  | cons p rest ih =>
    by_cases hp : p.1 = k
    · simp only [popEntries, if_pos hp, getEntries]
      rw [if_neg (by rw [hp]; exact fun he => h he.symm)]
      exact ih
    · simp only [popEntries, if_neg hp, getEntries]
      by_cases hq : p.1 = k'
      · simp [hq]
      · rw [if_neg hq, if_neg hq]
        exact ih

theorem Dict.get_pop_ne (d : Dict) (k k' : String) (h : k' ≠ k) :
    (d.pop k).get k' = d.get k' :=
  getEntries_pop_ne d.entries k k' h

/- ### Values -/

/-- Python `float(value)` on the numeric values the metadata pipeline
handles (ints and floats). -/
def Val.toRat? : Val → Option Rat
  | .vint n => some n
  | .vrat q => some q
  | _ => Option.none

/-- Python `int(value)`: ints pass through, floats truncate toward zero,
integer-literal strings parse, everything else raises. -/
def Val.toInt? : Val → Option Int
  | .vint n => some n
  | .vrat q => some (if 0 ≤ q then q.floor else q.ceil)
  | .vstr s => s.toInt?
  | _ => Option.none

/-- `str(value)` as used when serializing entity values into file names. -/
def Val.disp : Val → String
  | .vstr s => s
  | .vint n => toString n
  | .vrat q => toString q
  | .vlist _ => "list"
  | .vnone => "None"

/- ### NumPy / NIfTI model -/

/-- A NumPy array: a flat row-major data list plus an explicit shape. -/
structure NDArray where
  shape : List Nat
  data : List Rat
deriving DecidableEq, Repr

/-- `np.array_equal`: same shape and the same elements. -/
def npArrayEqual (x y : NDArray) : Bool :=
  x.shape == y.shape && x.data == y.data

/-- A NIfTI header.  `dim` is the data shape recorded in the header
(`get_data_shape`), `pixdim` the pixel-dimension vector (index 4 is the
time step), `hdrKind` distinguishes the NIfTI-1 / NIfTI-2 header classes,
and `rest` abstracts all remaining header fields.  Structural equality of
this record models nibabel's header equality (element-wise comparison of
the header's fields). -/
structure NiftiHeader where
  dim : List Nat
  pixdim : List Rat
  xyztUnits : Int
  hdrKind : Nat
  rest : Dict
deriving DecidableEq, Repr

/-- A nibabel NIfTI image: data array, affine, header. -/
structure Nifti where
  dataobj : NDArray
  affine : List (List Rat)
  header : NiftiHeader
deriving DecidableEq, Repr

/-- `Nifti1Image(data, affine, header)` / `Nifti2Image(...)`: a fresh image
whose header is copied from `header` with its shape updated to the shape of
`data` (what nibabel's image constructor does). -/
def mkNiftiImage (data : NDArray) (affine : List (List Rat)) (header : NiftiHeader) : Nifti :=
  { dataobj := data, affine := affine, header := { header with dim := data.shape } }

/-- Number of trailing `1`s of a shape list. -/
def countTrailingOnes (l : List Nat) : Nat :=
  (l.reverse.takeWhile (fun d => d == 1)).length

/-- `nibabel.funcs.squeeze_image`: if the image has fewer than 3 axes it is
returned unchanged; otherwise only *trailing* singleton axes are dropped,
and only beyond the third axis (the loop runs over `shape[3:]` from the
end), so the result never has fewer than 3 axes.  The data is reshaped to
the new shape (flat contents unchanged). -/
def squeezeImage (img : Nifti) : Nifti :=
  let shape := img.dataobj.shape
  if shape.length < 3 then img
  else
    let t := countTrailingOnes (shape.drop 3)
    let newShape := shape.take (shape.length - t)
    mkNiftiImage ⟨newShape, img.dataobj.data⟩ img.affine img.header

/-- `getNiftiData` (from `rtCommon.bidsCommon`, not in src).  Modelled from
the spec: the "raw voxel data array" accessor — it returns the image's data
array. -/
def getNiftiData (img : Nifti) : NDArray := img.dataobj

/- ### Errors (`rtCommon/errors.py` is not in src; the spec's §7 error
kinds are modelled as one inductive) -/

/-- The error kinds of the core, per spec §7, plus the two raise sites the
code itself contains: Python's `assert` failure (`AssertionError`) and a
mapping subscript failure (`KeyError`) are distinct from all of them. -/
inductive BidsError where
  | typeError : BidsError
  | missingMetadataError : List String → BidsError
  | valueError : String → BidsError
  | assertionError : BidsError
  | keyError : BidsError
deriving DecidableEq, Repr

/- ### Modelled constants from `rtCommon/bidsCommon.py` (not in src) -/

/-- Modelled from the spec: `DATASET_DESC_REQ_FIELDS` of
`rtCommon.bidsCommon` is not in src; per spec §3 the dataset description
"must include a fixed set of required fields, e.g. `Name`, `BIDSVersion`". -/
def DATASET_DESC_REQ_FIELDS : List String := ["Name", "BIDSVersion"]

/-- Modelled from the spec: `DEFAULT_DATASET_DESC` of `rtCommon.bidsCommon`
is not in src; per spec §3 the dataset description "defaults to a hardcoded
description if omitted". -/
def DEFAULT_DATASET_DESC : Dict :=
  ⟨[("Name", .vstr "BIDS-Incremental Dataset from RT-Cloud"),
    ("BIDSVersion", .vstr "1.4.1")]⟩

/-- Modelled from the spec: `loadBidsEntities` of `rtCommon.bidsCommon` is
not in src; per spec §3 the recognized BIDS entities are "a fixed set of
~20 names such as subject, session, task, run" (the repository's test
counts exactly 20, all lowercase, including subject, task and session). -/
def ENTITIES : List String :=
  ["subject", "session", "task", "acquisition", "ceagent", "reconstruction",
   "direction", "run", "modality", "echo", "flip", "inversion", "mtransfer",
   "part", "recording", "processing", "space", "split", "density", "description"]

/-- The six required image-metadata fields
(`BidsIncremental.REQUIRED_IMAGE_METADATA`). -/
def REQUIRED_IMAGE_METADATA : List String :=
  ["subject", "task", "suffix", "datatype", "RepetitionTime", "EchoTime"]

/- ### Metadata normalization -/

/-- `np.linspace a b num`: `num` evenly spaced values from `a` to `b`
inclusive. -/
def linspaceQ (a b : Rat) (num : Nat) : List Rat :=
  (List.range num).map (fun i => a + (b - a) * i / (num - 1))

/-- Modelled from the spec: `metadataFromProtocolName` of
`rtCommon.bidsCommon` is not in src; per spec §4.1 Step 1, if the
`ProtocolName` string matches a pattern such as
`<prefix>_ses-<session>_task-<task>_run-<run>`, it extracts `session`,
`task` and `run`.  A non-string (including an absent) protocol name yields
an empty mapping.  `extractEntity` pulls one `<pre><value>` chunk out of
the underscore-separated parts. -/
def extractEntity (parts : List String) (pre key : String) (d : Dict) : Dict :=
  match parts.find? (fun p => p.startsWith pre) with
  | some p => d.insert key (.vstr (p.drop pre.length))
  | Option.none => d

/-- See `extractEntity`: the spec-modelled `metadataFromProtocolName`. -/
def metadataFromProtocolName (protocolName : Option Val) : Dict :=
  match protocolName with
  | some (.vstr s) =>
    extractEntity (s.splitOn "_") "run-" "run"
      (extractEntity (s.splitOn "_") "task-" "task"
        (extractEntity (s.splitOn "_") "ses-" "session" ⟨[]⟩))
  | _ => ⟨[]⟩

/-- Modelled from the spec: `adjustTimeUnits` of `rtCommon.bidsCommon` is
not in src; per spec §4.1 Step 3, time fields recorded in non-standard
units (milliseconds where BIDS expects seconds) are rescaled to seconds.
A numeric `RepetitionTime` above 100 (resp. `EchoTime` above 1) is taken to
be in milliseconds and divided by 1000; plausible values are kept (as
floats).  Non-numeric and absent values are left untouched.
`adjustField` rescales one field against its plausibility bound. -/
def adjustField (field : String) (maxValue : Rat) (d : Dict) : Dict :=
  match d.get field with
  | some v =>
    match v.toRat? with
    | some x => if x ≤ maxValue then d.insert field (.vrat x)
                else d.insert field (.vrat (x / 1000))
    | Option.none => d
  | Option.none => d

/-- See `adjustField`: the spec-modelled `adjustTimeUnits`. -/
def adjustTimeUnits (md : Dict) : Dict :=
  adjustField "EchoTime" 1 (adjustField "RepetitionTime" 100 md)

/-- `BidsIncremental._preprocessAndSetMetadata`: parse `ProtocolName`,
inject the placeholder `SliceTiming` (the source hardcodes
`list(np.linspace(0.0, 1.5, 27))`), overlay the raw metadata (raw fields
win on conflict), then normalize time units. -/
def preprocessMetadata (imageMetadata : Dict) : Dict :=
  let md := metadataFromProtocolName (imageMetadata.get "ProtocolName")
  let md := md.insert "SliceTiming" (.vlist (linspaceQ 0 (3/2) 27))
  let md := md.updateWith imageMetadata
  adjustTimeUnits md

/-- `BidsIncremental.missingImageMetadata`: the required fields that are
not keys of the mapping (key membership only). -/
def missingImageMetadata (imageMeta : Dict) : List String :=
  REQUIRED_IMAGE_METADATA.filter (fun f => ! imageMeta.hasKey f)

/-- `BidsIncremental.isCompleteImageMetadata`. -/
def isCompleteImageMetadata (imageMeta : Dict) : Bool :=
  (missingImageMetadata imageMeta).length == 0

/-- Second half of `BidsIncremental._postprocessMetadata`:
`TaskName := task` (a plain subscript, so an absent `task` is a
`KeyError`). -/
def postFinish (md : Dict) : Except BidsError Dict :=
  match md.get "task" with
  | some t => .ok (md.insert "TaskName" t)
  | Option.none => .error .keyError

/-- `BidsIncremental._postprocessMetadata`: coerce a present non-`None`
`run` to `int`, then derive `TaskName` from `task`. -/
def postprocessMetadata (md : Dict) : Except BidsError Dict :=
  match md.get "run" with
  | some v =>
    if v == .vnone then postFinish md
    else
      match v.toInt? with
      | some n => postFinish (md.insert "run" (.vint n))
      | Option.none => .error (.valueError "invalid literal for int")
  | Option.none => postFinish md

/-- Whether `_postprocessMetadata`'s `run` coercion succeeds. -/
def runOk (md : Dict) : Bool :=
  match md.get "run" with
  | some v => v == .vnone || (v.toInt?).isSome
  | Option.none => true

/- ### The BidsIncremental aggregate -/

/-- The `BidsIncremental` value object after a successful construction. -/
structure BidsIncremental where
  image : Nifti
  imgMetadata : Dict
  datasetMetadata : Dict
  readme : String
  eventsColumns : List String
  version : Nat
deriving DecidableEq, Repr

/-- The Python argument passed as `image`: `None`, a `Nifti1Image`, a
`Nifti2Image`, or any other Python value. -/
inductive ImageArg where
  | pynone : ImageArg
  | nifti1 : Nifti → ImageArg
  | nifti2 : Nifti → ImageArg
  | otherValue : ImageArg
deriving DecidableEq, Repr

/-- The dataset-description required fields the constructor reports as
missing: `datasetMetadata.get(field, None) is None`, i.e. a key that is
absent *or* maps to `None` counts as missing. -/
def datasetMissingFields (ds : Dict) : List String :=
  DATASET_DESC_REQ_FIELDS.filter (fun f => (ds.get f).getD Val.vnone == Val.vnone)

/-- Conversion of the repetition-time metadata value for the
`pixdim[4] = RepetitionTime` header assignment (a NumPy float slot). -/
def valToPixdim : Val → Except BidsError Rat
  | .vint n => .ok n
  | .vrat q => .ok q
  | _ => .error (.valueError "could not convert value for pixdim")

/-- The 3-D-to-4-D promotion step of `BidsIncremental.__init__`: if the
squeezed image has exactly 3 axes, append a singleton time axis
(`np.expand_dims(data, -1)`), rebuild the image with the same affine and
header, and overwrite `pixdim[4]` with the metadata's `RepetitionTime`. -/
def promoteTo4D (sq : Nifti) (md : Dict) : Except BidsError Nifti :=
  if sq.header.dim.length = 3 then
    match valToPixdim ((md.get "RepetitionTime").getD Val.vnone) with
    | .error e => .error e
    | .ok tr =>
      .ok { dataobj := ⟨(getNiftiData sq).shape ++ [1], (getNiftiData sq).data⟩,
            affine := sq.affine,
            header := { dim := (getNiftiData sq).shape ++ [1],
                        pixdim := sq.header.pixdim.set 4 tr,
                        xyztUnits := sq.header.xyztUnits,
                        hdrKind := sq.header.hdrKind,
                        rest := sq.header.rest } }
  else .ok sq

/-- Image validation and storage in `BidsIncremental.__init__`: squeeze,
reject rank < 3 with `ValueError`, promote rank 3 to rank 4, and finally
`assert` rank 4 (an `AssertionError`, not one of the spec's error kinds,
if the rank exceeds 4). -/
def mkWithImage (img : Nifti) (md ds : Dict) : Except BidsError BidsIncremental :=
  if (squeezeImage img).header.dim.length < 3 then
    .error (.valueError "Image must have at least 3 dimensions")
  else
    match promoteTo4D (squeezeImage img) md with
    | .error e => .error e
    | .ok fin =>
      if fin.header.dim.length = 4 then
        .ok { image := fin, imgMetadata := md, datasetMetadata := ds,
              readme := "Generated BIDS-Incremental Dataset from RT-Cloud",
              eventsColumns := ["onset", "duration", "response_time"],
              version := 1 }
      else .error .assertionError

/-- The metadata phase of `BidsIncremental.__init__`: preprocess, check the
required image metadata (raising `MissingMetadataError` with the full list
of absent fields), postprocess, then hand over to the image phase with the
stored dataset description (the supplied one, or the default). -/
def mkAfterDataset (img : Nifti) (raw : Dict) (dsMeta : Option Dict) :
    Except BidsError BidsIncremental :=
  if missingImageMetadata (preprocessMetadata raw) = [] then
    match postprocessMetadata (preprocessMetadata raw) with
    | .error e => .error e
    | .ok md2 => mkWithImage img md2 (dsMeta.getD DEFAULT_DATASET_DESC)
  else .error (.missingMetadataError (missingImageMetadata (preprocessMetadata raw)))

/-- `BidsIncremental.__init__`: reject a `None` or non-NIfTI image with
`TypeError`; reject a supplied dataset description whose required fields
are absent or `None` with `MissingMetadataError`; then run the metadata and
image phases. -/
def mkBidsIncremental (image : ImageArg) (imageMetadata : Dict)
    (datasetMetadata : Option Dict) : Except BidsError BidsIncremental :=
  match image with
  | .pynone => .error .typeError
  | .otherValue => .error .typeError
  | .nifti1 img =>
    match datasetMetadata with
    | some ds =>
      if datasetMissingFields ds = [] then mkAfterDataset img imageMetadata (some ds)
      else .error (.missingMetadataError (datasetMissingFields ds))
    | Option.none => mkAfterDataset img imageMetadata Option.none
  | .nifti2 img =>
    match datasetMetadata with
    | some ds =>
      if datasetMissingFields ds = [] then mkAfterDataset img imageMetadata (some ds)
      else .error (.missingMetadataError (datasetMissingFields ds))
    | Option.none => mkAfterDataset img imageMetadata Option.none

/- ### Post-construction operations -/

/-- `BidsIncremental._exceptIfNotBids`. -/
def exceptIfNotBids (entityName : String) : Except BidsError Unit :=
  if ENTITIES.contains entityName then .ok ()
  else .error (.valueError (entityName ++ " is not a valid BIDS entity name"))

/-- `BidsIncremental.getMetadataField`. -/
def getMetadataField (i : BidsIncremental) (field : String) (strict : Bool) :
    Except BidsError (Option Val) :=
  if strict then
    match exceptIfNotBids field with
    | .error e => .error e
    | .ok _ => .ok (i.imgMetadata.get field)
  else .ok (i.imgMetadata.get field)

/-- `BidsIncremental.setMetadataField` (an empty field name is falsy in
Python, hence the `ValueError`). -/
def setMetadataField (i : BidsIncremental) (field : String) (v : Val) (strict : Bool) :
    Except BidsError BidsIncremental :=
  match (if strict then exceptIfNotBids field else .ok ()) with
  | .error e => .error e
  | .ok _ =>
    if field ≠ "" then .ok { i with imgMetadata := i.imgMetadata.insert field v }
    else .error (.valueError "Metadata field to set cannot be None")

/-- `BidsIncremental.removeMetadataField`: a required field is rejected
before anything else; then the strict entity check; then `pop`. -/
def removeMetadataField (i : BidsIncremental) (field : String) (strict : Bool) :
    Except BidsError BidsIncremental :=
  if REQUIRED_IMAGE_METADATA.contains field then
    .error (.valueError ("\"" ++ field ++ "\" is required and cannot be removed"))
  else
    match (if strict then exceptIfNotBids field else .ok ()) with
    | .error e => .error e
    | .ok _ => .ok { i with imgMetadata := i.imgMetadata.pop field }

/-- `BidsIncremental.__eq__`: headers, image metadata, dataset metadata and
voxel data are compared in turn, returning `False` at the first mismatch. -/
def bidsIncEq (a b : BidsIncremental) : Bool :=
  if a.image.header = b.image.header then
    if Dict.beq a.imgMetadata b.imgMetadata then
      if Dict.beq a.datasetMetadata b.datasetMetadata then
        npArrayEqual (getNiftiData a.image) (getNiftiData b.image)
      else false
    else false
  else false

/- ### Naming and serialization (BIDS archive emulation) -/

/-- `BidsFileExtension` (from `rtCommon.bidsCommon`, not in src).  Modelled
from the spec: image / sidecar-metadata / events file kinds with "the
correct extension". -/
inductive BidsFileExtension where
  | image : BidsFileExtension
  | imageCompressed : BidsFileExtension
  | metadata : BidsFileExtension
  | events : BidsFileExtension
deriving DecidableEq, Repr

def BidsFileExtension.value : BidsFileExtension → String
  | .image => ".nii"
  | .imageCompressed => ".nii.gz"
  | .metadata => ".json"
  | .events => ".tsv"

/-- One optional entity chunk of the BIDS file-name pattern. -/
def optChunk (entities : Dict) (pre key : String) : String :=
  match entities.get key with
  | some v => pre ++ v.disp
  | Option.none => ""

/-- Modelled from the spec: `BIDS_FILE_PATTERN` plus pybids'
`build_path` are not in src; per spec §4.2 the file name serializes the
recognized entity fields present in the metadata in the fixed BIDS order,
then the suffix and the extension
(`sub-<>[_ses-<>]_task-<>[_acq-<>][_ce-<>][_dir-<>][_rec-<>][_run-<>][_echo-<>]_<suffix>.<ext>`). -/
def buildBidsFileName (entities : Dict) : String :=
  "sub-" ++ ((entities.get "subject").getD Val.vnone).disp ++
  optChunk entities "_ses-" "session" ++
  "_task-" ++ ((entities.get "task").getD Val.vnone).disp ++
  optChunk entities "_acq-" "acquisition" ++
  optChunk entities "_ce-" "ceagent" ++
  optChunk entities "_dir-" "direction" ++
  optChunk entities "_rec-" "reconstruction" ++
  optChunk entities "_run-" "run" ++
  optChunk entities "_echo-" "echo" ++
  "_" ++ ((entities.get "suffix").getD Val.vnone).disp ++
  ((entities.get "extension").getD Val.vnone).disp

/-- The entity sub-dictionary `makeBidsFileName` builds: every recognized
entity key whose metadata value is present and not `None`. -/
def entitiesFromMetadata (md : Dict) : Dict :=
  ENTITIES.foldl (fun acc k =>
    match md.get k with
    | some v => if v == Val.vnone then acc else acc.insert k v
    | Option.none => acc) ⟨[]⟩

/-- `BidsIncremental.makeBidsFileName` as a function of the metadata it
reads: collect present entities, set the extension, force the suffix to
`events` for the events file and to the metadata's `suffix` otherwise, and
serialize. -/
def makeBidsFileNameOfMd (md : Dict) (extension : BidsFileExtension) : String :=
  let entities := entitiesFromMetadata md
  let entities := entities.insert "extension" (.vstr extension.value)
  let entities :=
    if extension = BidsFileExtension.events then entities.insert "suffix" (.vstr "events")
    else entities.insert "suffix" ((md.get "suffix").getD Val.vnone)
  buildBidsFileName entities

def makeBidsFileName (i : BidsIncremental) (extension : BidsFileExtension) : String :=
  makeBidsFileNameOfMd i.imgMetadata extension

def imageFileName (i : BidsIncremental) : String := makeBidsFileName i .image

def metadataFileName (i : BidsIncremental) : String := makeBidsFileName i .metadata

def eventsFileName (i : BidsIncremental) : String := makeBidsFileName i .events

/-- Modelled from the spec: `BIDS_DIR_PATH_PATTERN` plus pybids'
`build_path` are not in src; per spec §4.2 the directory path is
`sub-<id>/[ses-<id>/]<datatype>`. -/
def buildBidsDirPath (md : Dict) : String :=
  "sub-" ++ ((md.get "subject").getD Val.vnone).disp ++
  (match md.get "session" with
   | some v => "/ses-" ++ v.disp
   | Option.none => "") ++
  "/" ++ ((md.get "datatype").getD Val.vnone).disp

/-- `BidsIncremental.dataDirPath`. -/
def dataDirPath (i : BidsIncremental) : String := buildBidsDirPath i.imgMetadata

/-- `os.path.join` for the (relative, slash-free-root) paths used here. -/
def pathJoin (a b : String) : String := a ++ "/" ++ b

/-- File contents `writeToArchive` produces. -/
inductive FileContent where
  | imageFile : Nifti → FileContent
  | jsonFile : Dict → FileContent
  | tsvFile : List String → FileContent
  | textFile : String → FileContent
deriving DecidableEq, Repr

/-- `BidsIncremental.writeToArchive` as the list of (path, content) pairs
it writes: the image, the sidecar JSON restricted to non-entity keys, the
events table, the dataset description and the README. -/
def writeToArchive (i : BidsIncremental) (datasetRoot : String) :
    List (String × FileContent) :=
  let dataDir := pathJoin datasetRoot (dataDirPath i)
  [(pathJoin dataDir (imageFileName i), .imageFile i.image),
   (pathJoin dataDir (metadataFileName i),
    .jsonFile ⟨i.imgMetadata.entries.filter (fun p => ¬ ENTITIES.contains p.1)⟩),
   (pathJoin dataDir (eventsFileName i), .tsvFile i.eventsColumns),
   (pathJoin datasetRoot "dataset_description.json", .jsonFile i.datasetMetadata),
   (pathJoin datasetRoot "README", .textFile i.readme)]

/- ### Claim-side auxiliary definitions -/

/-- The claims' reading of "squeezing out singleton dimensions": removing
*all* axes of size 1 (`np.squeeze` semantics) — to be contrasted with the
code's `nibabel.funcs.squeeze_image`, which removes only trailing singleton
axes beyond the third. -/
def removeAllSingletons (shape : List Nat) : List Nat :=
  shape.filter (fun d => d ≠ 1)

/-- Observer: the header shape of a successfully constructed incremental. -/
def resultDim : Except BidsError BidsIncremental → Option (List Nat)
  | .ok inc => some inc.image.header.dim
  | .error _ => Option.none

/-- Observer: `pixdim[4]` of a successfully constructed incremental. -/
def resultPixdim4 : Except BidsError BidsIncremental → Option Rat
  | .ok inc => inc.image.header.pixdim.get? 4
  | .error _ => Option.none

/-- Observer: did construction succeed? -/
def isOkResult : Except BidsError BidsIncremental → Bool
  | .ok _ => true
  | .error _ => false

/-- Observer: the last stored `SliceTiming` value. -/
def sliceTimingLast (md : Dict) : Option Rat :=
  match md.get "SliceTiming" with
  | some (.vlist l) => l.getLast?
  | _ => Option.none

/-- Extract the value of a successful construction (with a fallback). -/
def getOkIncremental (r : Except BidsError BidsIncremental) (fallback : BidsIncremental) :
    BidsIncremental :=
  match r with
  | .ok inc => inc
  | .error _ => fallback

/- ### Pipeline lemmas -/

theorem postFinish_no_mme (md : Dict) (L : List String) :
    postFinish md ≠ .error (.missingMetadataError L) := by
  unfold postFinish
  split <;> simp

theorem postprocess_no_mme (md : Dict) (L : List String) :
    postprocessMetadata md ≠ .error (.missingMetadataError L) := by
  unfold postprocessMetadata
  split
  · split
    · exact postFinish_no_mme md L
    · split
      · exact postFinish_no_mme _ L
      · simp
  · exact postFinish_no_mme md L

theorem valToPixdim_no_mme (v : Val) (L : List String) :
    valToPixdim v ≠ .error (.missingMetadataError L) := by
  unfold valToPixdim
  split <;> simp

theorem promoteTo4D_no_mme (sq : Nifti) (md : Dict) (L : List String) :
    promoteTo4D sq md ≠ .error (.missingMetadataError L) := by
  unfold promoteTo4D
  split
  · split
    · next e he =>
      intro hc
      apply valToPixdim_no_mme ((md.get "RepetitionTime").getD Val.vnone) L
      rw [he]
      injection hc with h2
      rw [h2]
    · simp
  · simp

theorem mkWithImage_no_mme (img : Nifti) (md ds : Dict) (L : List String) :
    mkWithImage img md ds ≠ .error (.missingMetadataError L) := by
  unfold mkWithImage
  split
  · simp
  · split
    · next e he =>
      intro hc
      apply promoteTo4D_no_mme (squeezeImage img) md L
      rw [he]
      injection hc with h2
      rw [h2]
    · split <;> simp

theorem mkAfterDataset_mme_iff (img : Nifti) (raw : Dict) (dsMeta : Option Dict)
    (L : List String) :
    mkAfterDataset img raw dsMeta = .error (.missingMetadataError L) ↔
      (L = missingImageMetadata (preprocessMetadata raw) ∧
       missingImageMetadata (preprocessMetadata raw) ≠ []) := by
  unfold mkAfterDataset
  by_cases hm : missingImageMetadata (preprocessMetadata raw) = []
  · rw [if_pos hm]
    constructor
    · intro hc
      exfalso
      rcases hp : postprocessMetadata (preprocessMetadata raw) with e | md2
      · rw [hp] at hc
        simp only at hc
        apply postprocess_no_mme (preprocessMetadata raw) L
        rw [hp]
        injection hc with h2
        rw [h2]
      · rw [hp] at hc
        simp only at hc
        exact mkWithImage_no_mme img md2 (dsMeta.getD DEFAULT_DATASET_DESC) L hc
    · intro h
      exact absurd hm h.2
  · rw [if_neg hm]
    constructor
    · intro hc
      injection hc with h2
      injection h2 with h3
      exact ⟨h3.symm, hm⟩
    · intro h
      rw [h.1]

/-- C1: For every raw image-metadata mapping (with a valid NIfTI image and
no supplied dataset description), construction raises `MissingMetadataError`
if and only if at least one of the six required fields is absent as a key
of the normalized metadata, and the reported list is exactly the list of
absent required fields (`missingImageMetadata` filters the required fields
by key-absence, so it enumerates every absent one, never just the first). -/
theorem construction_raises_missingMetadata_iff_required_absent
    (img : Nifti) (raw : Dict) (L : List String) :
    mkBidsIncremental (.nifti1 img) raw Option.none =
        .error (.missingMetadataError L) ↔
      (L = missingImageMetadata (preprocessMetadata raw) ∧
       missingImageMetadata (preprocessMetadata raw) ≠ []) := by
  unfold mkBidsIncremental
  exact mkAfterDataset_mme_iff img raw Option.none L

theorem squeezeImage_pixdim (img : Nifti) :
    (squeezeImage img).header.pixdim = img.header.pixdim := by
  simp only [squeezeImage, mkNiftiImage]
  split <;> rfl

theorem squeezeImage_wf (img : Nifti) (hwf : img.header.dim = img.dataobj.shape) :
    (squeezeImage img).header.dim = (squeezeImage img).dataobj.shape := by
  simp only [squeezeImage, mkNiftiImage]
  split
  · exact hwf
  · rfl

theorem hasKey_of_missing_nil (md : Dict) (h : missingImageMetadata md = [])
    (f : String) (hf : f ∈ REQUIRED_IMAGE_METADATA) : md.hasKey f = true := by
  by_contra hc
  have hfilter : f ∈ missingImageMetadata md := by
    unfold missingImageMetadata
    apply List.mem_filter.mpr
    refine ⟨hf, ?_⟩
    simp only [Bool.not_eq_true] at hc
    rw [hc]
    rfl
  rw [h] at hfilter
  exact absurd hfilter (List.not_mem_nil f)

theorem get?_set_self_rat (l : List Rat) (n : Nat) (v : Rat) (h : n < l.length) :
    (l.set n v).get? n = some v := by
  induction l generalizing n with
  | nil => simp at h
  | cons a rest ih =>
    cases n with
    | zero => rfl
    | succ m =>
      simp only [List.set, List.get?]
      exact ih m (Nat.lt_of_succ_lt_succ h)

theorem postprocess_ok_of_runOk (md : Dict) (hrun : runOk md = true)
    (htask : md.hasKey "task" = true) :
    ∃ md2, postprocessMetadata md = .ok md2 ∧
      ∀ k, k ≠ "run" → k ≠ "TaskName" → md2.get k = md.get k := by
  have hts : ∃ t, md.get "task" = some t := by
    rcases hg : md.get "task" with _ | t
    · have hs := Dict.get_isSome_of_hasKey md "task" htask
      rw [hg] at hs
      simp at hs
    · exact ⟨t, rfl⟩
  rcases hts with ⟨t, ht⟩
  unfold runOk at hrun
  rcases hr : md.get "run" with _ | v
  · refine ⟨md.insert "TaskName" t, ?_, ?_⟩
    · unfold postprocessMetadata postFinish
      rw [hr, ht]
    · intro k _ hk2
      exact Dict.get_insert_ne _ _ _ _ (Ne.symm hk2)
  · rw [hr] at hrun
    by_cases hv : v = Val.vnone
    · subst hv
      refine ⟨md.insert "TaskName" t, ?_, ?_⟩
      · unfold postprocessMetadata postFinish
        rw [hr, ht]
        simp
      · intro k _ hk2
        exact Dict.get_insert_ne _ _ _ _ (Ne.symm hk2)
    · have hbeq : (v == Val.vnone) = false := by simp [hv]
      have hint : ∃ n, v.toInt? = some n := by
        simp only [hbeq, Bool.false_or, Option.isSome_iff_exists] at hrun
        rcases hrun with ⟨n, hn⟩
        exact ⟨n, hn⟩
      rcases hint with ⟨n, hn⟩
      have ht2 : (md.insert "run" (.vint n)).get "task" = some t := by
        rw [Dict.get_insert_ne md "run" "task" _ (by decide)]
        exact ht
      refine ⟨(md.insert "run" (.vint n)).insert "TaskName" t, ?_, ?_⟩
      · unfold postprocessMetadata postFinish
        rw [hr]
        simp only [hbeq, Bool.false_eq_true, if_false, hn, ht2]
      · intro k hk1 hk2
        rw [Dict.get_insert_ne _ _ _ _ (Ne.symm hk2),
            Dict.get_insert_ne _ _ _ _ (Ne.symm hk1)]

/-- Decidable equality for `Except` results, so concrete outcomes can be
checked by evaluation. -/
instance instDecEqExcept {e a : Type} [DecidableEq e] [DecidableEq a] :
    DecidableEq (Except e a) := fun x y =>
  match x, y with
  | .error u, .error v =>
    if h : u = v then isTrue (by rw [h]) else isFalse (by simp [h])
  | .ok u, .ok v =>
    if h : u = v then isTrue (by rw [h]) else isFalse (by simp [h])
  | .error _, .ok _ => isFalse (by simp)
  | .ok _, .error _ => isFalse (by simp)

/- ### Concrete fixtures -/

def idAffine : List (List Rat) := [[1,0,0,0],[0,1,0,0],[0,0,1,0],[0,0,0,1]]

/-- A well-formed header with the given shape and a full 8-entry `pixdim`
whose index 4 starts at `0`. -/
def stdHeader (dim : List Nat) : NiftiHeader :=
  { dim := dim, pixdim := [1,1,1,1,0,1,1,1], xyztUnits := 10, hdrKind := 1, rest := ⟨[]⟩ }

/-- A well-formed all-zero image of the given shape. -/
def stdImage (dim : List Nat) (count : Nat) : Nifti :=
  { dataobj := ⟨dim, List.replicate count 0⟩, affine := idAffine, header := stdHeader dim }

/-- A metadata mapping with exactly the six required fields
(`RepetitionTime` 2 s, `EchoTime` 0.035 s). -/
def stdMeta : Dict :=
  ⟨[("subject", .vstr "01"), ("task", .vstr "faces"), ("suffix", .vstr "bold"),
    ("datatype", .vstr "func"), ("RepetitionTime", .vint 2), ("EchoTime", .vrat (7/200))]⟩

/- ### C2 -/

/-- C2 counterexample: the image of shape `[1,2,3,4]` is exactly 3-D after
squeezing out (all) singleton dimensions, and the metadata carries the
required fields with stored `RepetitionTime = 2`; construction succeeds,
but the image keeps shape `[1,2,3,4]` — no new singleton axis at index 3 —
and the header's `pixdim[4]` stays `0 ≠ 2`.  The code squeezes only
*trailing* singleton axes (beyond the third), so a leading singleton axis
defeats the claimed promotion. -/
theorem threeD_promotion_counterexample :
    (removeAllSingletons (stdImage [1,2,3,4] 24).dataobj.shape).length = 3 ∧
    missingImageMetadata (preprocessMetadata stdMeta) = [] ∧
    (preprocessMetadata stdMeta).get "RepetitionTime" = some (.vrat 2) ∧
    resultDim (mkBidsIncremental (.nifti1 (stdImage [1,2,3,4] 24)) stdMeta Option.none) =
      some [1,2,3,4] ∧
    resultPixdim4 (mkBidsIncremental (.nifti1 (stdImage [1,2,3,4] 24)) stdMeta Option.none) =
      some 0 ∧
    (0 : Rat) ≠ 2 :=
  of_decide_eq_true (by with_unfolding_all rfl)

/-- C2 (amended): for every NIfTI image whose shape is exactly 3-D after
the squeeze the code actually performs (`nibabel.funcs.squeeze_image`,
which removes only trailing singleton axes beyond the third), and metadata
that passes the required-field and `run` checks with a stored (normalized)
`RepetitionTime` of `q`, construction succeeds, the resulting image has
rank 4 with the new singleton axis appended at index 3, and the header's
`pixdim[4]` equals `q`. -/
theorem threeD_promotion_after_trailing_squeeze
    (img : Nifti) (raw : Dict) (q : Rat)
    (hwf : img.header.dim = img.dataobj.shape)
    (hlen : (squeezeImage img).header.dim.length = 3)
    (hmiss : missingImageMetadata (preprocessMetadata raw) = [])
    (hrun : runOk (preprocessMetadata raw) = true)
    (htr : (preprocessMetadata raw).get "RepetitionTime" = some (.vrat q))
    (hpix : 4 < img.header.pixdim.length) :
    resultDim (mkBidsIncremental (.nifti1 img) raw Option.none) =
        some ((squeezeImage img).header.dim ++ [1]) ∧
    resultPixdim4 (mkBidsIncremental (.nifti1 img) raw Option.none) = some q := by
  have htask := hasKey_of_missing_nil _ hmiss "task" (by decide)
  rcases postprocess_ok_of_runOk _ hrun htask with ⟨md2, hpost, hget⟩
  have htr2 : md2.get "RepetitionTime" = some (.vrat q) := by
    rw [hget "RepetitionTime" (by decide) (by decide)]
    exact htr
  have hwf2 := squeezeImage_wf img hwf
  have hlen2 : (squeezeImage img).dataobj.shape.length = 3 := by
    rw [← hwf2]
    exact hlen
  have h1 : mkBidsIncremental (.nifti1 img) raw Option.none =
      mkWithImage img md2 DEFAULT_DATASET_DESC := by
    show mkAfterDataset img raw Option.none = mkWithImage img md2 DEFAULT_DATASET_DESC
    unfold mkAfterDataset
    rw [if_pos hmiss, hpost]
    rfl
  have hv : valToPixdim ((md2.get "RepetitionTime").getD Val.vnone) = .ok q := by
    rw [htr2]
    rfl
  have h2 : promoteTo4D (squeezeImage img) md2 =
      .ok { dataobj := ⟨(squeezeImage img).dataobj.shape ++ [1],
                        (squeezeImage img).dataobj.data⟩,
            affine := (squeezeImage img).affine,
            header := { dim := (squeezeImage img).dataobj.shape ++ [1],
                        pixdim := (squeezeImage img).header.pixdim.set 4 q,
                        xyztUnits := (squeezeImage img).header.xyztUnits,
                        hdrKind := (squeezeImage img).header.hdrKind,
                        rest := (squeezeImage img).header.rest } } := by
    unfold promoteTo4D
    rw [if_pos hlen, hv]
    rfl
  have hcond : ((squeezeImage img).dataobj.shape ++ [1]).length = 4 := by
    simp [hlen2]
  have h3 : mkWithImage img md2 DEFAULT_DATASET_DESC = .ok
      { image := { dataobj := ⟨(squeezeImage img).dataobj.shape ++ [1],
                               (squeezeImage img).dataobj.data⟩,
                   affine := (squeezeImage img).affine,
                   header := { dim := (squeezeImage img).dataobj.shape ++ [1],
                               pixdim := (squeezeImage img).header.pixdim.set 4 q,
                               xyztUnits := (squeezeImage img).header.xyztUnits,
                               hdrKind := (squeezeImage img).header.hdrKind,
                               rest := (squeezeImage img).header.rest } },
        imgMetadata := md2, datasetMetadata := DEFAULT_DATASET_DESC,
        readme := "Generated BIDS-Incremental Dataset from RT-Cloud",
        eventsColumns := ["onset", "duration", "response_time"], version := 1 } := by
    unfold mkWithImage
    rw [if_neg (by rw [hlen]; decide)]
    simp only [h2]
    rw [if_pos hcond]
  rw [h1, h3]
  constructor
  · simp only [resultDim, hwf2]
  · simp only [resultPixdim4]
    rw [squeezeImage_pixdim]
    exact get?_set_self_rat _ 4 q hpix

/-- C2 witness: a concrete 3-D `2×2×2` image with the standard metadata is
promoted to `2×2×2×1` and gets `pixdim[4] = 2`. -/
theorem threeD_promotion_after_trailing_squeeze_witness :
    resultDim (mkBidsIncremental (.nifti1 (stdImage [2,2,2] 8)) stdMeta Option.none) =
        some ((squeezeImage (stdImage [2,2,2] 8)).header.dim ++ [1]) ∧
    resultPixdim4 (mkBidsIncremental (.nifti1 (stdImage [2,2,2] 8)) stdMeta Option.none) =
        some 2 :=
  threeD_promotion_after_trailing_squeeze (stdImage [2,2,2] 8) stdMeta 2
    (of_decide_eq_true (by with_unfolding_all rfl))
    (of_decide_eq_true (by with_unfolding_all rfl))
    (of_decide_eq_true (by with_unfolding_all rfl))
    (of_decide_eq_true (by with_unfolding_all rfl))
    (of_decide_eq_true (by with_unfolding_all rfl))
    (of_decide_eq_true (by with_unfolding_all rfl))

/- ### C9 -/

/-- C9 counterexample: the image of shape `[2,2,1]` has fewer than 3
dimensions after removing all singleton dimensions, yet construction
succeeds (producing a `2×2×1×1` incremental) instead of failing with
`ValueError`: the code's squeeze (`nibabel.funcs.squeeze_image`) never
drops an axis among the first three, so the image stays 3-D. -/
theorem sub3d_valueerror_counterexample :
    (removeAllSingletons (stdImage [2,2,1] 4).dataobj.shape).length < 3 ∧
    isOkResult (mkBidsIncremental (.nifti1 (stdImage [2,2,1] 4)) stdMeta Option.none) = true ∧
    resultDim (mkBidsIncremental (.nifti1 (stdImage [2,2,1] 4)) stdMeta Option.none) =
      some [2,2,1,1] :=
  of_decide_eq_true (by with_unfolding_all rfl)

/-- C9 (amended): construction fails with
`ValueError ("Image must have at least 3 dimensions")` exactly for images
that are *originally* of rank < 3 (with otherwise-valid metadata): the
code's squeeze removes only trailing singleton axes beyond the third, so it
never reduces an image's rank below 3, and only an already sub-3-D input
reaches the rank check with rank < 3. -/
theorem sub3d_valueerror_on_low_rank (img : Nifti) (raw : Dict)
    (hwf : img.header.dim = img.dataobj.shape)
    (hlt : img.dataobj.shape.length < 3)
    (hmiss : missingImageMetadata (preprocessMetadata raw) = [])
    (hrun : runOk (preprocessMetadata raw) = true) :
    mkBidsIncremental (.nifti1 img) raw Option.none =
      .error (.valueError "Image must have at least 3 dimensions") := by
  have htask := hasKey_of_missing_nil _ hmiss "task" (by decide)
  rcases postprocess_ok_of_runOk _ hrun htask with ⟨md2, hpost, _⟩
  have hsq : squeezeImage img = img := by
    simp only [squeezeImage]
    rw [if_pos hlt]
  have h1 : mkBidsIncremental (.nifti1 img) raw Option.none =
      mkWithImage img md2 DEFAULT_DATASET_DESC := by
    show mkAfterDataset img raw Option.none = mkWithImage img md2 DEFAULT_DATASET_DESC
    unfold mkAfterDataset
    rw [if_pos hmiss, hpost]
    rfl
  rw [h1]
  unfold mkWithImage
  rw [if_pos (by rw [hsq, hwf]; exact hlt)]

/-- C9 witness: a concrete 2-D `2×2` image with valid metadata is rejected
with the `ValueError`. -/
theorem sub3d_valueerror_on_low_rank_witness :
    mkBidsIncremental (.nifti1 (stdImage [2,2] 4)) stdMeta Option.none =
      .error (.valueError "Image must have at least 3 dimensions") :=
  sub3d_valueerror_on_low_rank (stdImage [2,2] 4) stdMeta
    (of_decide_eq_true (by with_unfolding_all rfl))
    (of_decide_eq_true (by with_unfolding_all rfl))
    (of_decide_eq_true (by with_unfolding_all rfl))
    (of_decide_eq_true (by with_unfolding_all rfl))

/- ### C5 -/

/-- C5 counterexample: a NIfTI image of shape `[2,2,2,2,2]` (rank 5 even
after removing all singleton dimensions), with complete metadata, makes
construction fail with an `AssertionError` (the source's final
`assert len(self.imageDimensions) == 4`), which is not a `TypeError`-kind
error. -/
theorem rank5_assertion_counterexample :
    4 < (removeAllSingletons (stdImage [2,2,2,2,2] 32).dataobj.shape).length ∧
    mkBidsIncremental (.nifti1 (stdImage [2,2,2,2,2] 32)) stdMeta Option.none =
      .error .assertionError ∧
    mkBidsIncremental (.nifti1 (stdImage [2,2,2,2,2] 32)) stdMeta Option.none ≠
      .error .typeError :=
  of_decide_eq_true (by with_unfolding_all rfl)

/-- C5 (amended): a `None` or non-NIfTI `image` argument always raises
`TypeError`; but a NIfTI image whose rank after the squeeze exceeds 4 (with
otherwise-valid metadata) fails the final rank-4 `assert` with an
`AssertionError`, not a `TypeError`-kind error. -/
theorem image_type_and_rank_errors :
    (∀ raw ds, mkBidsIncremental .pynone raw ds = .error .typeError) ∧
    (∀ raw ds, mkBidsIncremental .otherValue raw ds = .error .typeError) ∧
    (∀ img raw, img.header.dim = img.dataobj.shape →
      4 < (squeezeImage img).header.dim.length →
      missingImageMetadata (preprocessMetadata raw) = [] →
      runOk (preprocessMetadata raw) = true →
      mkBidsIncremental (.nifti1 img) raw Option.none = .error .assertionError) := by
  refine ⟨fun raw ds => rfl, fun raw ds => rfl, ?_⟩
  intro img raw hwf hgt hmiss hrun
  have htask := hasKey_of_missing_nil _ hmiss "task" (by decide)
  rcases postprocess_ok_of_runOk _ hrun htask with ⟨md2, hpost, _⟩
  have h1 : mkBidsIncremental (.nifti1 img) raw Option.none =
      mkWithImage img md2 DEFAULT_DATASET_DESC := by
    show mkAfterDataset img raw Option.none = mkWithImage img md2 DEFAULT_DATASET_DESC
    unfold mkAfterDataset
    rw [if_pos hmiss, hpost]
    rfl
  rw [h1]
  unfold mkWithImage
  rw [if_neg (by omega)]
  have hpromote : promoteTo4D (squeezeImage img) md2 = .ok (squeezeImage img) := by
    unfold promoteTo4D
    rw [if_neg (by omega)]
  simp only [hpromote]
  rw [if_neg (by omega)]

/-- C5 witness: the three error behaviors at concrete inputs. -/
theorem image_type_and_rank_errors_witness :
    mkBidsIncremental .pynone stdMeta Option.none = .error .typeError ∧
    mkBidsIncremental .otherValue stdMeta Option.none = .error .typeError ∧
    mkBidsIncremental (.nifti1 (stdImage [3,3,3,3,3] 243)) stdMeta Option.none =
      .error .assertionError :=
  ⟨image_type_and_rank_errors.1 stdMeta Option.none,
   image_type_and_rank_errors.2.1 stdMeta Option.none,
   image_type_and_rank_errors.2.2 (stdImage [3,3,3,3,3] 243) stdMeta
     (of_decide_eq_true (by with_unfolding_all rfl))
     (of_decide_eq_true (by with_unfolding_all rfl))
     (of_decide_eq_true (by with_unfolding_all rfl))
     (of_decide_eq_true (by with_unfolding_all rfl))⟩

/- ### C4 -/

theorem hasKeyEntries_of_get_isSome (l : List (String × Val)) (k : String)
    (h : (getEntries l k).isSome = true) : hasKeyEntries l k = true := by
  induction l with
  | nil => simp [getEntries] at h
  | cons p rest ih =>
    by_cases hp : p.1 = k
    · simp [hasKeyEntries, hp]
    · simp only [getEntries, if_neg hp] at h
      simp only [hasKeyEntries, Bool.or_eq_true]
      exact Or.inr (ih h)

theorem Dict.hasKey_of_get_isSome (d : Dict) (k : String)
    (h : (d.get k).isSome = true) : d.hasKey k = true :=
  hasKeyEntries_of_get_isSome d.entries k h

theorem extractEntity_get_ne (parts : List String) (pre key : String) (d : Dict)
    (k : String) (h : key ≠ k) :
    (extractEntity parts pre key d).get k = d.get k := by
  unfold extractEntity
  split
  · exact Dict.get_insert_ne _ _ _ _ h
  · rfl

theorem adjustField_get_ne (field : String) (maxValue : Rat) (d : Dict)
    (k : String) (h : field ≠ k) :
    (adjustField field maxValue d).get k = d.get k := by
  unfold adjustField
  split
  · split
    · split <;> exact Dict.get_insert_ne _ _ _ _ h
    · rfl
  · rfl

theorem adjustField_hasKey (field : String) (maxValue : Rat) (d : Dict)
    (k : String) : (adjustField field maxValue d).hasKey k = d.hasKey k := by
  unfold adjustField
  split
  next v hv =>
    have hk : d.hasKey field = true :=
      Dict.hasKey_of_get_isSome d field (by rw [hv]; rfl)
    split
    · split <;>
        (rw [Dict.hasKey_insert]
         cases hfk : field == k with
         | false => simp
         | true =>
           have hfe := beq_iff_eq.mp hfk
           subst hfe
           simp [hk])
    · rfl
  · rfl

theorem adjustTimeUnits_hasKey (md : Dict) (k : String) :
    (adjustTimeUnits md).hasKey k = md.hasKey k := by
  unfold adjustTimeUnits
  rw [adjustField_hasKey, adjustField_hasKey]

/-- The placeholder amendment: if the raw mapping has no `SliceTiming` key,
the normalized metadata stores exactly `list(np.linspace(0.0, 1.5, 27))` —
27 values evenly spaced over the fixed interval `[0, 1.5]`, regardless of
the mapping's `RepetitionTime`. -/
theorem sliceTiming_placeholder_fixed_interval (raw : Dict)
    (h : raw.hasKey "SliceTiming" = false) :
    (preprocessMetadata raw).get "SliceTiming" =
      some (.vlist (linspaceQ 0 (3/2) 27)) ∧
    (linspaceQ 0 (3/2) 27).length = 27 ∧
    (linspaceQ 0 (3/2) 27).head? = some 0 ∧
    (linspaceQ 0 (3/2) 27).getLast? = some (3/2) := by
  refine ⟨?_, of_decide_eq_true (by with_unfolding_all rfl),
          of_decide_eq_true (by with_unfolding_all rfl),
          of_decide_eq_true (by with_unfolding_all rfl)⟩
  show (adjustTimeUnits
      (((metadataFromProtocolName (raw.get "ProtocolName")).insert "SliceTiming"
          (.vlist (linspaceQ 0 (3/2) 27))).updateWith raw)).get "SliceTiming" =
      some (.vlist (linspaceQ 0 (3/2) 27))
  unfold adjustTimeUnits
  rw [adjustField_get_ne _ _ _ _ (by decide),
      adjustField_get_ne _ _ _ _ (by decide),
      Dict.get_updateWith_of_not_hasKey _ _ _ h,
      Dict.get_insert_self]

/-- A metadata mapping whose `RepetitionTime` is 3 seconds, with no
`SliceTiming` supplied. -/
def tr3Meta : Dict :=
  ⟨[("subject", .vstr "01"), ("task", .vstr "rest"), ("suffix", .vstr "bold"),
    ("datatype", .vstr "func"), ("RepetitionTime", .vint 3), ("EchoTime", .vrat (3/100))]⟩

/-- C4 counterexample: for a mapping with `RepetitionTime = 3` seconds and
no `SliceTiming`, the injected placeholder ends at `1.5`, not at `TR = 3`:
the code hardcodes `np.linspace(0.0, 1.5, 27)`, so the values are not
evenly spaced over `[0, TR]`. -/
theorem sliceTiming_placeholder_counterexample :
    tr3Meta.hasKey "SliceTiming" = false ∧
    (preprocessMetadata tr3Meta).get "RepetitionTime" = some (.vrat 3) ∧
    sliceTimingLast (preprocessMetadata tr3Meta) = some (3/2) ∧
    ((3 : Rat)/2) ≠ 3 :=
  of_decide_eq_true (by with_unfolding_all rfl)

/-- C4 witness: the fixed placeholder at the standard metadata. -/
theorem sliceTiming_placeholder_fixed_interval_witness :
    (preprocessMetadata stdMeta).get "SliceTiming" =
      some (.vlist (linspaceQ 0 (3/2) 27)) ∧
    (linspaceQ 0 (3/2) 27).length = 27 ∧
    (linspaceQ 0 (3/2) 27).head? = some 0 ∧
    (linspaceQ 0 (3/2) 27).getLast? = some (3/2) :=
  sliceTiming_placeholder_fixed_interval stdMeta
    (of_decide_eq_true (by with_unfolding_all rfl))

/- ### C6 -/

/-- C6: two incrementals compare equal under `__eq__` if and only if their
image headers are (element-wise, i.e. field-wise) equal, their full
image-metadata mappings are equal as dictionaries, their dataset-metadata
mappings are equal as dictionaries, and their voxel data arrays are
element-wise equal (`np.array_equal`). -/
theorem incremental_equality_iff_components (a b : BidsIncremental) :
    bidsIncEq a b = true ↔
      (a.image.header = b.image.header ∧
       Dict.beq a.imgMetadata b.imgMetadata = true ∧
       Dict.beq a.datasetMetadata b.datasetMetadata = true ∧
       npArrayEqual (getNiftiData a.image) (getNiftiData b.image) = true) := by
  unfold bidsIncEq
  by_cases h1 : a.image.header = b.image.header
  · rw [if_pos h1]
    by_cases h2 : Dict.beq a.imgMetadata b.imgMetadata = true
    · rw [if_pos h2]
      by_cases h3 : Dict.beq a.datasetMetadata b.datasetMetadata = true
      · rw [if_pos h3]
        simp [h1, h2, h3]
      · rw [if_neg h3]
        simp [h3]
    · rw [if_neg h2]
      simp [h2]
  · rw [if_neg h1]
    simp [h1]

/- ### C8 -/

/-- C8: removing any of the six required image-metadata fields raises
`ValueError` — the required-field check precedes everything else, so no
modified incremental is ever produced and the metadata mapping is left
unchanged; removing a present non-required field (with the default
`strict = False`) produces an incremental whose metadata is exactly the old
mapping minus that key: the key is gone and every other key's value is
untouched. -/
theorem removeMetadataField_required_vs_plain :
    (∀ i : BidsIncremental, ∀ f : String, ∀ s : Bool,
      f ∈ REQUIRED_IMAGE_METADATA →
      removeMetadataField i f s =
        .error (.valueError ("\"" ++ f ++ "\" is required and cannot be removed"))) ∧
    (∀ i : BidsIncremental, ∀ f : String,
      f ∉ REQUIRED_IMAGE_METADATA →
      i.imgMetadata.hasKey f = true →
      removeMetadataField i f false =
        .ok { i with imgMetadata := i.imgMetadata.pop f } ∧
      (i.imgMetadata.pop f).get f = Option.none ∧
      ∀ k, k ≠ f → (i.imgMetadata.pop f).get k = i.imgMetadata.get k) := by
  constructor
  · intro i f s hf
    unfold removeMetadataField
    rw [if_pos (by simpa using hf)]
  · intro i f hf _
    unfold removeMetadataField
    rw [if_neg (by simpa using hf)]
    exact ⟨rfl, Dict.get_pop_self _ f, fun k hk2 => Dict.get_pop_ne _ _ _ hk2⟩

/-- A concrete constructed-shape incremental with one removable extra
field. -/
def sampleInc : BidsIncremental :=
  { image := stdImage [2,2,2,1] 8,
    imgMetadata := ⟨[("subject", .vstr "01"), ("task", .vstr "faces"),
                     ("suffix", .vstr "bold"), ("datatype", .vstr "func"),
                     ("RepetitionTime", .vrat 2), ("EchoTime", .vrat (7/200)),
                     ("comment", .vstr "hello")]⟩,
    datasetMetadata := DEFAULT_DATASET_DESC,
    readme := "Generated BIDS-Incremental Dataset from RT-Cloud",
    eventsColumns := ["onset", "duration", "response_time"],
    version := 1 }

/-- C8 witness: removing the required `EchoTime` fails with `ValueError`;
removing the non-required present `comment` removes exactly that key. -/
theorem removeMetadataField_required_vs_plain_witness :
    removeMetadataField sampleInc "EchoTime" false =
      .error (.valueError ("\"" ++ "EchoTime" ++ "\" is required and cannot be removed")) ∧
    removeMetadataField sampleInc "comment" false =
      .ok { sampleInc with imgMetadata := sampleInc.imgMetadata.pop "comment" } ∧
    (sampleInc.imgMetadata.pop "comment").get "comment" = Option.none ∧
    (sampleInc.imgMetadata.pop "comment").get "subject" =
      sampleInc.imgMetadata.get "subject" :=
  ⟨removeMetadataField_required_vs_plain.1 sampleInc "EchoTime" false (by decide),
   (removeMetadataField_required_vs_plain.2 sampleInc "comment" (by decide)
      (of_decide_eq_true (by with_unfolding_all rfl))).1,
   (removeMetadataField_required_vs_plain.2 sampleInc "comment" (by decide)
      (of_decide_eq_true (by with_unfolding_all rfl))).2.1,
   (removeMetadataField_required_vs_plain.2 sampleInc "comment" (by decide)
      (of_decide_eq_true (by with_unfolding_all rfl))).2.2 "subject" (by decide)⟩

/- ### C7 -/

theorem entitiesFromMetadata_ext (m1 m2 : Dict) (h : ∀ k, m1.get k = m2.get k) :
    entitiesFromMetadata m1 = entitiesFromMetadata m2 := by
  unfold entitiesFromMetadata
  have hfold : ∀ (ks : List String) (acc : Dict),
      ks.foldl (fun acc k =>
        match m1.get k with
        | some v => if v == Val.vnone then acc else acc.insert k v
        | Option.none => acc) acc =
      ks.foldl (fun acc k =>
        match m2.get k with
        | some v => if v == Val.vnone then acc else acc.insert k v
        | Option.none => acc) acc := by
    intro ks
    induction ks with
    | nil => intro acc; rfl
    | cons k rest ih =>
      intro acc
      simp only [List.foldl_cons, h k]
      exact ih _
  exact hfold ENTITIES ⟨[]⟩

theorem makeBidsFileNameOfMd_ext (m1 m2 : Dict) (ext : BidsFileExtension)
    (h : ∀ k, m1.get k = m2.get k) :
    makeBidsFileNameOfMd m1 ext = makeBidsFileNameOfMd m2 ext := by
  unfold makeBidsFileNameOfMd
  rw [entitiesFromMetadata_ext m1 m2 h, h "suffix"]

theorem buildBidsDirPath_ext (m1 m2 : Dict) (h : ∀ k, m1.get k = m2.get k) :
    buildBidsDirPath m1 = buildBidsDirPath m2 := by
  unfold buildBidsDirPath
  rw [h "subject", h "session", h "datatype"]

/-- C7: the file-name and directory-path derivations are pure, deterministic
functions of the metadata: two incrementals whose metadata mappings are
equal (as dictionaries) get identical file names and directory paths, and
repeating a derivation on an unmodified incremental returns the identical
string.  (In this embedding the derivations are plain functions of the
incremental that build and return strings — as in the source, which only
reads `self._imgMetadata` — so no call can mutate the incremental.) -/
theorem naming_derivations_pure (i j : BidsIncremental)
    (h : Dict.beq i.imgMetadata j.imgMetadata = true) :
    imageFileName i = imageFileName j ∧
    metadataFileName i = metadataFileName j ∧
    eventsFileName i = eventsFileName j ∧
    dataDirPath i = dataDirPath j ∧
    imageFileName i = imageFileName i ∧
    metadataFileName i = metadataFileName i ∧
    eventsFileName i = eventsFileName i ∧
    dataDirPath i = dataDirPath i := by
  have hg := (Dict.beq_iff_get _ _).mp h
  exact ⟨makeBidsFileNameOfMd_ext _ _ _ hg, makeBidsFileNameOfMd_ext _ _ _ hg,
         makeBidsFileNameOfMd_ext _ _ _ hg, buildBidsDirPath_ext _ _ hg,
         rfl, rfl, rfl, rfl⟩

/-- `sampleInc` with its metadata entries stored in a different order: the
same mapping as a dictionary. -/
def sampleIncReordered : BidsIncremental :=
  { sampleInc with
    imgMetadata := ⟨[("comment", .vstr "hello"), ("EchoTime", .vrat (7/200)),
                     ("RepetitionTime", .vrat 2), ("datatype", .vstr "func"),
                     ("suffix", .vstr "bold"), ("task", .vstr "faces"),
                     ("subject", .vstr "01")]⟩ }

/-- C7 witness: two incrementals with the same metadata mapping (stored in
different orders) derive identical names and paths. -/
theorem naming_derivations_pure_witness :
    imageFileName sampleInc = imageFileName sampleIncReordered ∧
    metadataFileName sampleInc = metadataFileName sampleIncReordered ∧
    eventsFileName sampleInc = eventsFileName sampleIncReordered ∧
    dataDirPath sampleInc = dataDirPath sampleIncReordered :=
  ⟨(naming_derivations_pure sampleInc sampleIncReordered
      (of_decide_eq_true (by with_unfolding_all rfl))).1,
   (naming_derivations_pure sampleInc sampleIncReordered
      (of_decide_eq_true (by with_unfolding_all rfl))).2.1,
   (naming_derivations_pure sampleInc sampleIncReordered
      (of_decide_eq_true (by with_unfolding_all rfl))).2.2.1,
   (naming_derivations_pure sampleInc sampleIncReordered
      (of_decide_eq_true (by with_unfolding_all rfl))).2.2.2.1⟩

/- ### C3 -/

theorem mkWithImage_ok_rank4 (img : Nifti) (md ds : Dict) (inc : BidsIncremental)
    (h : mkWithImage img md ds = .ok inc) : inc.image.header.dim.length = 4 := by
  unfold mkWithImage at h
  split at h
  · exact absurd h (by simp)
  · split at h
    · exact absurd h (by simp)
    · split at h
      · next h4 =>
        injection h with h5
        rw [← h5]
        exact h4
      · exact absurd h (by simp)

theorem mkAfterDataset_ok_rank4 (img : Nifti) (raw : Dict) (dsMeta : Option Dict)
    (inc : BidsIncremental) (h : mkAfterDataset img raw dsMeta = .ok inc) :
    inc.image.header.dim.length = 4 := by
  unfold mkAfterDataset at h
  split at h
  · split at h
    · exact absurd h (by simp)
    · exact mkWithImage_ok_rank4 _ _ _ _ h
  · exact absurd h (by simp)

/-- C3: every successfully constructed incremental has an image of rank
exactly 4, and the post-construction operations preserve the image
unchanged (hence its dimensionality): a successful `setMetadataField` or
`removeMetadataField` returns an incremental with the identical image, and
`writeToArchive` writes exactly the incremental's own image (it reads,
never writes, the in-memory incremental; `getMetadataField` and the naming
derivations return values without producing a new incremental at all). -/
theorem constructed_incremental_rank4_invariant
    (arg : ImageArg) (raw : Dict) (ds : Option Dict) (inc : BidsIncremental)
    (h : mkBidsIncremental arg raw ds = .ok inc) :
    inc.image.header.dim.length = 4 ∧
    (∀ f v s inc2, setMetadataField inc f v s = .ok inc2 → inc2.image = inc.image) ∧
    (∀ f s inc2, removeMetadataField inc f s = .ok inc2 → inc2.image = inc.image) ∧
    (∀ root, (writeToArchive inc root).map Prod.snd =
      [.imageFile inc.image,
       .jsonFile ⟨inc.imgMetadata.entries.filter (fun p => ¬ ENTITIES.contains p.1)⟩,
       .tsvFile inc.eventsColumns, .jsonFile inc.datasetMetadata,
       .textFile inc.readme]) := by
  refine ⟨?_, ?_, ?_, fun root => rfl⟩
  · cases arg with
    | pynone => exact absurd h (by simp [mkBidsIncremental])
    | otherValue => exact absurd h (by simp [mkBidsIncremental])
    | nifti1 img =>
      cases ds with
      | none => exact mkAfterDataset_ok_rank4 _ _ _ _ h
      | some d =>
        simp only [mkBidsIncremental] at h
        split at h
        · exact mkAfterDataset_ok_rank4 _ _ _ _ h
        · exact absurd h (by simp)
    | nifti2 img =>
      cases ds with
      | none => exact mkAfterDataset_ok_rank4 _ _ _ _ h
      | some d =>
        simp only [mkBidsIncremental] at h
        split at h
        · exact mkAfterDataset_ok_rank4 _ _ _ _ h
        · exact absurd h (by simp)
  · intro f v s inc2 hset
    unfold setMetadataField at hset
    split at hset
    · exact absurd hset (by simp)
    · split at hset
      · injection hset with h5
        rw [← h5]
      · exact absurd hset (by simp)
  · intro f s inc2 hrem
    unfold removeMetadataField at hrem
    split at hrem
    · exact absurd hrem (by simp)
    · split at hrem
      · exact absurd hrem (by simp)
      · injection hrem with h5
        rw [← h5]

/-- A fallback incremental for extracting `.ok` results. -/
def fallbackInc : BidsIncremental :=
  { image := stdImage [0] 0, imgMetadata := ⟨[]⟩, datasetMetadata := ⟨[]⟩,
    readme := "", eventsColumns := [], version := 0 }

/-- The incremental constructed from a concrete `2×2×2×2` image. -/
def c3Inc : BidsIncremental :=
  getOkIncremental
    (mkBidsIncremental (.nifti1 (stdImage [2,2,2,2] 16)) stdMeta Option.none)
    fallbackInc

/-- C3 witness: the concrete construction yields rank 4, and a concrete
`setMetadataField` call leaves the image untouched. -/
theorem constructed_incremental_rank4_invariant_witness :
    c3Inc.image.header.dim.length = 4 ∧
    (getOkIncremental (setMetadataField c3Inc "comment" (.vstr "x") false)
        fallbackInc).image = c3Inc.image := by
  have hmk : mkBidsIncremental (.nifti1 (stdImage [2,2,2,2] 16)) stdMeta Option.none =
      .ok c3Inc := of_decide_eq_true (by with_unfolding_all rfl)
  have H := constructed_incremental_rank4_invariant _ _ _ _ hmk
  refine ⟨H.1, ?_⟩
  exact H.2.1 "comment" (.vstr "x") false _
    (of_decide_eq_true (by with_unfolding_all rfl))

/- ### C10 -/

/-- C10: the two required-field validations treat a present-but-`None`
value asymmetrically.  (a) A supplied dataset description mapping `Name`
to `None` makes construction raise `MissingMetadataError`, with `Name`
among the reported fields — `datasetMetadata.get(field, None) is None`
counts a `None` value as missing.  (b) The image-metadata validation tests
key membership only: a mapping with an `EchoTime` key (even `None`-valued)
never lists `EchoTime` as missing, and a raw image-metadata mapping
carrying all six required keys — `EchoTime` possibly `None` — never raises
`MissingMetadataError` (with no dataset description supplied). -/
theorem null_value_asymmetry :
    (∀ img : Nifti, ∀ raw ds : Dict, ds.get "Name" = some Val.vnone →
      mkBidsIncremental (.nifti1 img) raw (some ds) =
        .error (.missingMetadataError (datasetMissingFields ds)) ∧
      "Name" ∈ datasetMissingFields ds) ∧
    (∀ md : Dict, md.hasKey "EchoTime" = true →
      "EchoTime" ∉ missingImageMetadata md) ∧
    (∀ img : Nifti, ∀ raw : Dict, ∀ L : List String,
      (∀ f, f ∈ REQUIRED_IMAGE_METADATA → raw.hasKey f = true) →
      mkBidsIncremental (.nifti1 img) raw Option.none ≠
        .error (.missingMetadataError L)) := by
  refine ⟨?_, ?_, ?_⟩
  · intro img raw ds h
    have hmem : "Name" ∈ datasetMissingFields ds := by
      unfold datasetMissingFields
      apply List.mem_filter.mpr
      refine ⟨by decide, ?_⟩
      rw [h]
      rfl
    have hne : datasetMissingFields ds ≠ [] := List.ne_nil_of_mem hmem
    refine ⟨?_, hmem⟩
    show (if datasetMissingFields ds = [] then mkAfterDataset img raw (some ds)
          else .error (.missingMetadataError (datasetMissingFields ds))) =
        .error (.missingMetadataError (datasetMissingFields ds))
    rw [if_neg hne]
  · intro md h hc
    have hfilt := (List.mem_filter.mp hc).2
    rw [h] at hfilt
    simp at hfilt
  · intro img raw L hkeys hc
    have hc2 : mkAfterDataset img raw Option.none =
        .error (.missingMetadataError L) := hc
    rcases (mkAfterDataset_mme_iff img raw Option.none L).mp hc2 with ⟨_, hne⟩
    apply hne
    have hall : ∀ f, f ∈ REQUIRED_IMAGE_METADATA →
        (preprocessMetadata raw).hasKey f = true := by
      intro f hf
      show (adjustTimeUnits
          (((metadataFromProtocolName (raw.get "ProtocolName")).insert "SliceTiming"
              (.vlist (linspaceQ 0 (3/2) 27))).updateWith raw)).hasKey f = true
      rw [adjustTimeUnits_hasKey]
      exact Dict.hasKey_updateWith_right _ _ _ (hkeys f hf)
    unfold missingImageMetadata
    rw [List.filter_eq_nil_iff]
    intro f hf
    simp [hall f hf]

/-- A dataset description whose `Name` is present but `None`. -/
def nullNameDesc : Dict := ⟨[("Name", .vnone), ("BIDSVersion", .vstr "1.4.1")]⟩

/-- The standard metadata with `EchoTime` present but `None`. -/
def nullEchoMeta : Dict :=
  ⟨[("subject", .vstr "01"), ("task", .vstr "faces"), ("suffix", .vstr "bold"),
    ("datatype", .vstr "func"), ("RepetitionTime", .vint 2), ("EchoTime", .vnone)]⟩

/-- C10 witness: the asymmetry at concrete inputs. -/
theorem null_value_asymmetry_witness :
    mkBidsIncremental (.nifti1 (stdImage [2,2,2] 8)) stdMeta (some nullNameDesc) =
      .error (.missingMetadataError (datasetMissingFields nullNameDesc)) ∧
    "Name" ∈ datasetMissingFields nullNameDesc ∧
    "EchoTime" ∉ missingImageMetadata nullEchoMeta ∧
    mkBidsIncremental (.nifti1 (stdImage [2,2,2] 8)) nullEchoMeta Option.none ≠
      .error (.missingMetadataError ["EchoTime"]) :=
  ⟨(null_value_asymmetry.1 (stdImage [2,2,2] 8) stdMeta nullNameDesc
      (of_decide_eq_true (by with_unfolding_all rfl))).1,
   (null_value_asymmetry.1 (stdImage [2,2,2] 8) stdMeta nullNameDesc
      (of_decide_eq_true (by with_unfolding_all rfl))).2,
   null_value_asymmetry.2.1 nullEchoMeta
      (of_decide_eq_true (by with_unfolding_all rfl)),
   null_value_asymmetry.2.2 (stdImage [2,2,2] 8) nullEchoMeta ["EchoTime"]
      (of_decide_eq_true (by with_unfolding_all rfl))⟩
